import Mathlib

/-!
Verification development for the expo-modules-autolinking discovery and
resolution pipeline (source: `expo-modules-autolinking/src/autolinking.ts`,
with an identical compiled artifact in `build/autolinking.js`).

The embedding models:
- filesystem paths as absolute/relative segment lists (`JSPath`),
- the filesystem and host runtime as an explicit environment (`LinkingEnv`)
  holding the glob results, `fs.realpath`, parsed config and manifest
  contents, the platform-capability registry, and the host string collation
  used by `String.prototype.localeCompare`,
- the exported operations `resolveSearchPathsAsync`, `findDefaultPathsAsync`,
  `findModulesAsync`, `mergeLinkingOptionsAsync`, `resolveModulesAsync` and
  `generatePackageListAsync` as pure functions over that environment;
  rejected promises are modelled with `Except`, and the caught failure in
  `generatePackageListAsync` with an `Option` result.
-/

/-- Model of a filesystem path: `abs` is true for absolute paths, `segs` are
the slash-separated components. JS code compares paths as strings; segment
lists compare the same way for canonical paths. -/
structure JSPath where
  abs : Bool
  segs : List String
deriving Repr, DecidableEq

/-- Model of `path.dirname` on segment lists: drop the last component. -/
def dirnameSegs (l : List String) : List String := l.dropLast

/-- Model of `path.basename` on segment lists: the last component
(empty string for the root). -/
def basenameSegs (l : List String) : String := l.getLastD ""

/-- Path normalization as performed by `path.join` and `path.resolve`:
drops `.` components and lets `..` pop the previous component. (For
relative paths with leading `..` the real `path.join` keeps the `..`;
the pipeline only joins `..` after at least one real component.) -/
def normalizeSegs (segs : List String) : List String :=
  segs.foldl (fun acc seg =>
    if seg = "." then acc
    else if seg = ".." then acc.dropLast
    else acc ++ [seg]) []

/-- Model of `path.join(p, extra...)`: append components, then normalize. -/
def joinRel (p : JSPath) (extra : List String) : JSPath :=
  { abs := p.abs, segs := normalizeSegs (p.segs ++ extra) }

/-- Model of `path.dirname` on whole paths. -/
def dirnamePath (p : JSPath) : JSPath := { abs := p.abs, segs := p.segs.dropLast }

/-- Model of `path.resolve(cwd, p)`: an absolute `p` stands alone, a relative
`p` is appended to `cwd`; the result is normalized. -/
def resolvePath (cwd : JSPath) (p : JSPath) : JSPath :=
  if p.abs then { abs := true, segs := normalizeSegs p.segs }
  else { abs := cwd.abs, segs := normalizeSegs (cwd.segs ++ p.segs) }

/-- Model of `arr?.includes(x)` on an optional string array: `undefined`
is falsy, so a missing array yields `false`. -/
def jsIncludesOpt (l : Option (List String)) (x : String) : Bool :=
  match l with
  | some l => l.contains x
  | none => false

/-- Scan for `jsIndexOf`, carrying the index reached so far. -/
def jsIndexOfAux (x : String) : List String → Int → Int
  | [], _ => -1
  | y :: ys, i => if y = x then i else jsIndexOfAux x ys (i + 1)

/-- Model of `Array.prototype.indexOf`: index of the first occurrence,
`-1` when absent. -/
def jsIndexOf (l : List String) (x : String) : Int :=
  jsIndexOfAux x l 0

/-- Association-list update in place (JS object property assignment on an
existing key keeps the key order). -/
def assocSet [BEq α] : List (α × β) → α → β → List (α × β)
  | [], k, v => [(k, v)]
  | e :: rest, k, v => if e.1 == k then (k, v) :: rest else e :: assocSet rest k v

/-- Association-list lookup (JS object property read). -/
def assocGet [BEq α] (l : List (α × β)) (k : α) : Option β :=
  (l.find? (fun e => e.1 == k)).map (·.2)

/-- Stable insertion into a sorted list, keeping existing elements first on
ties; used to model `Array.prototype.sort` with a comparator. -/
def jsSortInsert (le : α → α → Bool) (x : α) : List α → List α
  | [] => [x]
  | y :: ys => if le y x then y :: jsSortInsert le x ys else x :: y :: ys

/-- Model of `Array.prototype.sort(cmp)`: a stable comparison sort; `le a b`
means the comparator returned a non-positive number on `(a, b)`. -/
def jsSortBy (le : α → α → Bool) : List α → List α
  | [] => []
  | x :: xs => jsSortInsert le x (jsSortBy le xs)

/-- One on-disk location providing a named module
(`PackageRevision` in `types.ts`, shaped by its use in `autolinking.ts`). -/
structure PackageRevision where
  path : JSPath
  version : String
deriving Repr, DecidableEq

/-- A primary revision together with the duplicate revisions recorded for
the same module name (the value type of `SearchResults`). -/
structure PrimaryRevision where
  path : JSPath
  version : String
  duplicates : List PackageRevision
deriving Repr, DecidableEq

/-- Model of the `SearchResults` object: a name-keyed mapping in insertion
order, as JS objects iterate string keys. -/
abbrev SearchResults := List (String × PrimaryRevision)

/-- Parsed content of a module config file; `platforms` is absent when the
file declares no `platforms` field. -/
structure ModuleConfig where
  platforms : Option (List String)
deriving Repr, DecidableEq

/-- One layer of autolinking options, as read from `package.json` or given
by the caller; every key is optional. `nsp` models the `namespace` key. -/
structure OptionsLayer where
  searchPaths : Option (List JSPath) := none
  exclude : Option (List String) := none
  target : Option String := none
  nsp : Option String := none
deriving Repr, DecidableEq

/-- The `expo.autolinking` section of a root `package.json`: base options
plus per-platform override sub-sections keyed by platform name. -/
structure AutolinkingConfig where
  base : OptionsLayer
  byPlatform : String → Option OptionsLayer

/-- Parsed content of a `package.json`: the fields the pipeline reads.
`expoAutolinking` collapses the optional chain `packageJson.expo?.autolinking`. -/
structure PackageJson where
  name : String := ""
  version : String := ""
  expoAutolinking : Option AutolinkingConfig := none

/-- Options provided to an exported operation before merging
(`SearchOptions` and its supertypes in `types.ts`): `platform` is required,
the rest optional. -/
structure ProvidedOptions where
  platform : String
  searchPaths : Option (List JSPath) := none
  exclude : Option (List String) := none
  target : Option String := none
  nsp : Option String := none

/-- The option fields of `ProvidedOptions` as a mergeable layer. -/
def toLayer (o : ProvidedOptions) : OptionsLayer :=
  { searchPaths := o.searchPaths, exclude := o.exclude, target := o.target, nsp := o.nsp }

/-- Effective options after `mergeLinkingOptionsAsync`: `searchPaths` is
always a concrete list by then. -/
structure EffectiveOptions where
  platform : String
  searchPaths : List JSPath
  exclude : Option (List String)
  target : Option String
  nsp : Option String
deriving Repr, DecidableEq

/-- Model of `Object.assign(a, b)` restricted to the option keys: a key
present in `b` overrides the whole value in `a` (shallow, top-level only). -/
def objectAssign (a b : OptionsLayer) : OptionsLayer :=
  { searchPaths := b.searchPaths <|> a.searchPaths
    exclude := b.exclude <|> a.exclude
    target := b.target <|> a.target
    nsp := b.nsp <|> a.nsp }

/-- Value returned by a platform capability from `resolveModuleAsync` when a
module resolves: platform-specific fields, which may even override the
`packageName` and `packageVersion` keys via the object spread. -/
structure ResolvedModule where
  packageName : Option String := none
  packageVersion : Option String := none
  extra : List (String × String) := []
deriving Repr, DecidableEq

/-- A resolved module descriptor (`ModuleDescriptor` in `types.ts`):
`packageName`, `packageVersion` and the spread platform-specific fields. -/
structure ModuleDescriptor where
  packageName : String
  packageVersion : String
  extra : List (String × String) := []
deriving Repr, DecidableEq

/-- A platform capability module `./platforms/<platform>`: the resolver and
the package-list generator. Rejections are modelled with `Except`; a
successful generation yields the artifact text. -/
structure PlatformLinking where
  resolveModuleAsync : String → PrimaryRevision → ProvidedOptions → Except String (Option ResolvedModule)
  generatePackageListAsync : List ModuleDescriptor → Option String → Option String → Except String String

/-- The environment a run sees: the process working directory, the
filesystem (glob enumeration, `realpath`, parsed file contents), the
platform-capability registry reached through `require`, and the host
collation behind `String.prototype.localeCompare`. -/
structure LinkingEnv where
  cwd : JSPath
  hasPackageJson : JSPath → Bool
  manifests : JSPath → PackageJson
  globResults : JSPath → List (List String)
  realpath : JSPath → JSPath
  configs : JSPath → ModuleConfig
  platforms : String → Option PlatformLinking
  localeCompare : String → String → Ordering

/-- Directories walked by `find-up`: the directory itself and every
ancestor up to the root. -/
def ancestorDirs (p : JSPath) : List JSPath :=
  (List.range (p.segs.length + 1)).reverse.map (fun k => { abs := p.abs, segs := p.segs.take k })

/-- Model of `findUp('package.json', { cwd: dir })`: the path of the
`package.json` in the nearest ancestor directory that has one. -/
def findUp (env : LinkingEnv) (dir : JSPath) : Option JSPath :=
  ((ancestorDirs dir).find? (fun d => env.hasPackageJson d)).map
    (fun d => { abs := d.abs, segs := d.segs ++ ["package.json"] })

/-- Loop body of `findDefaultPathsAsync`; the fuel bounds the walk by the
directory depth, which the source loop decreases on every iteration. -/
def findDefaultPathsGo (env : LinkingEnv) : Nat → JSPath → List JSPath
  | 0, _ => []
  | fuel + 1, dir =>
    match findUp env dir with
    | none => []
    | some pkgJsonPath =>
      joinRel pkgJsonPath ["..", "node_modules"] ::
        findDefaultPathsGo env fuel (dirnamePath (dirnamePath pkgJsonPath))

/-- Model of `findDefaultPathsAsync(cwd)`: accumulate the workspace
`node_modules` directories found walking up from `cwd`. -/
def findDefaultPathsAsync (env : LinkingEnv) (cwd : JSPath) : List JSPath :=
  findDefaultPathsGo env (cwd.segs.length + 1) cwd

/-- Model of `resolveSearchPathsAsync(searchPaths, cwd)`: resolve explicit
paths against `cwd`, or fall back to the default workspace paths. -/
def resolveSearchPathsAsync (env : LinkingEnv) (searchPaths : Option (List JSPath)) (cwd : JSPath) : List JSPath :=
  match searchPaths with
  | some sps => if sps.length > 0 then sps.map (resolvePath cwd) else findDefaultPathsAsync env cwd
  | none => findDefaultPathsAsync env cwd

/-- Model of `findPackageJsonPathAsync()`: the nearest `package.json` above
the process working directory. -/
def findPackageJsonPathAsync (env : LinkingEnv) : Option JSPath :=
  findUp env env.cwd

/-- The `expo.autolinking` section of the nearest root manifest, when both
the manifest and the section exist (`packageJson.expo?.autolinking`). -/
def rootAutolinkingConfig (env : LinkingEnv) : Option AutolinkingConfig :=
  match findPackageJsonPathAsync env with
  | some p => (env.manifests (dirnamePath p)).expoAutolinking
  | none => none

/-- Model of `mergeLinkingOptionsAsync(providedOptions)`: three shallow
layers (base section, its platform sub-section, provided options, later
wins), then `searchPaths` is replaced by the resolved search paths. -/
def mergeLinkingOptionsAsync (env : LinkingEnv) (providedOptions : ProvidedOptions) : EffectiveOptions :=
  let baseOptions : Option AutolinkingConfig := rootAutolinkingConfig env
  let platformOptions : Option OptionsLayer :=
    if providedOptions.platform = "" then none
    else baseOptions.bind (fun b => b.byPlatform providedOptions.platform)
  let merged : OptionsLayer :=
    objectAssign
      (objectAssign (objectAssign {} ((baseOptions.map (·.base)).getD {})) (platformOptions.getD {}))
      (toLayer providedOptions)
  { platform := providedOptions.platform
    searchPaths := resolveSearchPathsAsync env merged.searchPaths env.cwd
    exclude := merged.exclude
    target := merged.target
    nsp := merged.nsp }

/-- Names of the config files, from lowest to highest priority
(`EXPO_MODULE_CONFIG_FILENAMES` in the source). -/
def EXPO_MODULE_CONFIG_FILENAMES : List String := ["unimodule.json", "expo-module.config.json"]

/-- Model of `configPriority(fullpath)`: `indexOf` of the basename among the
recognized filenames; higher number means higher priority, `-1` if unknown. -/
def configPriority (fullpath : List String) : Int :=
  jsIndexOf EXPO_MODULE_CONFIG_FILENAMES (basenameSegs fullpath)

/-- Body of the `reduce` building `uniqueConfigPaths`: keep one config path
per package directory, keyed by `path.dirname`, strictly higher priority
replacing the recorded one. -/
def uniqueConfigStep (acc : List (List String × List String)) (configPath : List String) :
    List (List String × List String) :=
  let d := dirnameSegs configPath
  match assocGet acc d with
  | none => acc ++ [(d, configPath)]
  | some existing =>
    if configPriority configPath > configPriority existing then assocSet acc d configPath else acc

/-- Accumulator of the `reduce` building `uniqueConfigPaths`. -/
def uniqueConfigAcc (paths : List (List String)) : List (List String × List String) :=
  paths.foldl uniqueConfigStep []

/-- Model of the `uniqueConfigPaths` computation inside `findModulesAsync`:
`Object.values` of the per-directory reduction, in key insertion order. -/
def uniqueConfigPaths (paths : List (List String)) : List (List String) :=
  (uniqueConfigAcc paths).map (·.2)

/-- Skip condition of the discovery loop, line for line:
`options.exclude?.includes(name) || !packageConfig.platforms?.includes(options.platform)`. -/
def shouldSkipModule (options : EffectiveOptions) (name : String) (packageConfig : ModuleConfig) : Bool :=
  jsIncludesOpt options.exclude name || !(jsIncludesOpt packageConfig.platforms options.platform)

/-- The full path of a config file as read by the discovery loop: the
symlink-resolved package directory joined with the config basename. -/
def configFileFullPath (env : LinkingEnv) (searchPath : JSPath) (packageConfigPath : List String) : JSPath :=
  joinRel (env.realpath (joinRel searchPath (dirnameSegs packageConfigPath))) [basenameSegs packageConfigPath]

/-- Body of one iteration of the discovery loop: the `(name, revision)`
pair recorded for a config path, or `none` when the skip condition fires. -/
def discoveredCandidate (env : LinkingEnv) (options : EffectiveOptions) (searchPath : JSPath)
    (packageConfigPath : List String) : Option (String × PackageRevision) :=
  let packagePath := env.realpath (joinRel searchPath (dirnameSegs packageConfigPath))
  let packageConfig := env.configs (configFileFullPath env searchPath packageConfigPath)
  let pkg := env.manifests packagePath
  if shouldSkipModule options pkg.name packageConfig then none
  else some (pkg.name, { path := packagePath, version := pkg.version })

/-- Fold step of the duplicate tracking on `results`: the first revision of
a name becomes primary, a later one with a new path is appended to its
duplicates, otherwise nothing changes. -/
def addRevision (rs : SearchResults) (name : String) (rev : PackageRevision) : SearchResults :=
  match assocGet rs name with
  | none => rs ++ [(name, { path := rev.path, version := rev.version, duplicates := [] })]
  | some prim =>
    if rev.path ≠ prim.path ∧ (∀ d ∈ prim.duplicates, d.path ≠ rev.path) then
      assocSet rs name { prim with duplicates := prim.duplicates ++ [rev] }
    else rs

/-- Processing of one search path by `findModulesAsync`: fold the
discovered candidates of that path into the results. -/
def processSearchPath (env : LinkingEnv) (options : EffectiveOptions) (rs₀ : SearchResults)
    (searchPath : JSPath) : SearchResults :=
  (uniqueConfigPaths (env.globResults searchPath)).foldl (fun rs packageConfigPath =>
    match discoveredCandidate env options searchPath packageConfigPath with
    | none => rs
    | some c => addRevision rs c.1 c.2) rs₀

/-- Model of `findModulesAsync` after the option merge: scan the search
paths in order, folding every discovery into the results. -/
def findModulesMerged (env : LinkingEnv) (options : EffectiveOptions) : SearchResults :=
  options.searchPaths.foldl (processSearchPath env options) []

/-- Model of the exported `findModulesAsync(providedOptions)`: merge the
options, then discover. -/
def findModulesAsync (env : LinkingEnv) (providedOptions : ProvidedOptions) : SearchResults :=
  findModulesMerged env (mergeLinkingOptionsAsync env providedOptions)

/-- Comparator passed to `.sort` in `resolveModulesAsync`: `a` may stay
before `b` when `a.packageName.localeCompare(b.packageName)` is not positive. -/
def descriptorLe (env : LinkingEnv) (a b : ModuleDescriptor) : Bool :=
  env.localeCompare a.packageName b.packageName ≠ Ordering.gt

/-- Model of `resolveModulesAsync(searchResults, options)`: load the
platform capability, resolve every entry (`Promise.all` rejects the whole
batch when any invocation rejects), drop absent modules, then sort by
package name with `localeCompare`. -/
def resolveModulesAsync (env : LinkingEnv) (searchResults : SearchResults)
    (options : ProvidedOptions) : Except String (List ModuleDescriptor) :=
  match env.platforms options.platform with
  | none => Except.error ("Cannot find module ./platforms/" ++ options.platform)
  | some platformLinking => do
    let resolved ← searchResults.mapM (fun entry =>
      (platformLinking.resolveModuleAsync entry.1 entry.2 options).map (fun res =>
        res.map (fun resolvedModule =>
          { packageName := resolvedModule.packageName.getD entry.1
            packageVersion := resolvedModule.packageVersion.getD entry.2.version
            extra := resolvedModule.extra })))
    pure (jsSortBy (descriptorLe env) (resolved.filterMap id))

/-- Model of `generatePackageListAsync(modules, options)`: the whole body
runs under `try`; a missing platform module or a rejected generation is
caught, reported, and the call returns normally with no artifact.
`some artifact` is the written artifact, `none` means none was produced. -/
def generatePackageListAsync (env : LinkingEnv) (modules : List ModuleDescriptor)
    (options : ProvidedOptions) : Option String :=
  let body : Except String String :=
    match env.platforms options.platform with
    | none => Except.error ("Cannot find module ./platforms/" ++ options.platform)
    | some platformLinking => platformLinking.generatePackageListAsync modules options.target options.nsp
  match body with
  | Except.ok artifact => some artifact
  | Except.error _ => none

/-- Discovered `(name, revision)` candidates of one search path, in
enumeration order: the per-iteration bodies of the discovery loop that
survive the skip condition. -/
def candidatesOf (env : LinkingEnv) (options : EffectiveOptions) (searchPath : JSPath) :
    List (String × PackageRevision) :=
  (uniqueConfigPaths (env.globResults searchPath)).filterMap (discoveredCandidate env options searchPath)

/-- All candidates of a run, across the effective search paths in priority
order. -/
def allCandidates (env : LinkingEnv) (options : EffectiveOptions) : List (String × PackageRevision) :=
  options.searchPaths.flatMap (candidatesOf env options)

/-- Lexicographic order on codepoint sequences. -/
def lexLeCodes : List Nat → List Nat → Bool
  | [], _ => true
  | _ :: _, [] => false
  | a :: as, b :: bs => if a < b then true else if b < a then false else lexLeCodes as bs

/-- Modelled from the spec: the claimed output order of `resolveModulesAsync`
is "simple lexicographic string comparison"; this is that comparison, on
the codepoint sequences of the two strings. -/
def simpleLexLe (a b : String) : Bool :=
  lexLeCodes (a.data.map Char.toNat) (b.data.map Char.toNat)

/-- Classifier for rejected promises: true exactly on `Except.error`. -/
def isErrorE : Except ε α → Bool
  | Except.error _ => true
  | Except.ok _ => false

/-- ASCII lowercasing on codepoints, the primary-strength collapse that the
ICU root collation applies to Latin letters. -/
def asciiLowerCode (c : Char) : Nat :=
  let n := c.toNat
  if 65 ≤ n ∧ n ≤ 90 then n + 32 else n

/-- Three-way comparison of codepoint sequences. -/
def compareCodes : List Nat → List Nat → Ordering
  | [], [] => Ordering.eq
  | [], _ :: _ => Ordering.lt
  | _ :: _, [] => Ordering.gt
  | a :: as, b :: bs =>
    if a < b then Ordering.lt else if b < a then Ordering.gt else compareCodes as bs

/-- A host collation in the shape of `String.prototype.localeCompare` under
the default ICU locale data: letters compare case-insensitively first, so
`"a"` sorts before `"B"` even though `"B"` precedes `"a"` by codepoint. -/
def icuLikeLocaleCompare (a b : String) : Ordering :=
  compareCodes (a.data.map asciiLowerCode) (b.data.map asciiLowerCode)

/-- A search-path value used by the concrete scenarios below. -/
def wSp1 : JSPath := { abs := true, segs := ["w", "a"] }

/-- A second, lower-priority search path for the concrete scenarios. -/
def wSp2 : JSPath := { abs := true, segs := ["w", "b"] }

/-- The `expo.autolinking` section of the concrete root manifest: a base
`exclude` and an `ios` override section carrying a `target`. -/
def wAutolinking : AutolinkingConfig where
  base := { exclude := some ["base-excluded"], target := some "t-base" }
  byPlatform := fun p => if p = "ios" then some { target := some "t-ios" } else none

/-- A concrete environment with a root manifest, two search paths, a
package with two config files, a package duplicated across both paths, and
an excluded package. -/
def wEnv : LinkingEnv where
  cwd := { abs := true, segs := ["w"] }
  hasPackageJson := fun p => p = { abs := true, segs := ["w"] }
  manifests := fun p =>
    if p = { abs := true, segs := ["w"] } then
      { name := "root", version := "0.0.0", expoAutolinking := some wAutolinking }
    else if p = { abs := true, segs := ["w", "a", "dup"] } then { name := "dup-pkg", version := "1.0.0" }
    else if p = { abs := true, segs := ["w", "b", "dup"] } then { name := "dup-pkg", version := "2.0.0" }
    else if p = { abs := true, segs := ["w", "a", "solo"] } then { name := "solo-pkg", version := "1.0.0" }
    else if p = { abs := true, segs := ["w", "a", "exmod"] } then { name := "ex-pkg", version := "1.0.0" }
    else {}
  globResults := fun p =>
    if p = wSp1 then
      [["dup", "unimodule.json"], ["dup", "expo-module.config.json"],
       ["solo", "expo-module.config.json"], ["exmod", "expo-module.config.json"]]
    else if p = wSp2 then [["dup", "expo-module.config.json"]]
    else []
  realpath := fun p => p
  configs := fun p =>
    if p = { abs := true, segs := ["w", "a", "dup", "expo-module.config.json"] } then { platforms := some ["ios", "android"] }
    else if p = { abs := true, segs := ["w", "a", "solo", "expo-module.config.json"] } then { platforms := some ["ios"] }
    else if p = { abs := true, segs := ["w", "a", "exmod", "expo-module.config.json"] } then { platforms := some ["ios"] }
    else if p = { abs := true, segs := ["w", "b", "dup", "expo-module.config.json"] } then { platforms := some ["ios"] }
    else { platforms := none }
  platforms := fun _ => none
  localeCompare := fun _ _ => Ordering.lt

/-- The options provided to the concrete scenarios: platform `ios`, both
search paths explicit, one excluded package name. -/
def wOpts : ProvidedOptions :=
  { platform := "ios", searchPaths := some [wSp1, wSp2], exclude := some ["ex-pkg"] }

/-- The same environment with different content in the lower-priority
`unimodule.json` of the `dup` package: discovery may not depend on it. -/
def wEnvLowChanged : LinkingEnv :=
  { wEnv with configs := fun p =>
      if p = { abs := true, segs := ["w", "a", "dup", "unimodule.json"] } then { platforms := some ["android"] }
      else wEnv.configs p }

/-- The same environment with every config declaring no `platforms` field. -/
def wEnvNoPlatforms : LinkingEnv :=
  { wEnv with configs := fun _ => { platforms := none } }

/-- A bare environment: no manifests, no packages, no platform capabilities. -/
def bEnv : LinkingEnv where
  cwd := { abs := true, segs := ["q"] }
  hasPackageJson := fun _ => false
  manifests := fun _ => {}
  globResults := fun _ => []
  realpath := fun p => p
  configs := fun _ => { platforms := none }
  platforms := fun _ => none
  localeCompare := fun _ _ => Ordering.lt

/-- A platform capability that resolves every module to an empty descriptor. -/
def plAccepting : PlatformLinking where
  resolveModuleAsync := fun _ _ _ => Except.ok (some {})
  generatePackageListAsync := fun _ _ _ => Except.ok "list"

/-- A platform capability whose resolver rejects for one package name. -/
def plFailingOnBad : PlatformLinking where
  resolveModuleAsync := fun name _ _ =>
    if name = "bad" then Except.error "resolver crashed" else Except.ok (some {})
  generatePackageListAsync := fun _ _ _ => Except.ok "list"

/-- Environment for the ordering scenario: the `ios` capability accepts
everything, and the host collation is the ICU-like one. -/
def cEnvCollation : LinkingEnv :=
  { bEnv with
      platforms := fun p => if p = "ios" then some plAccepting else none
      localeCompare := icuLikeLocaleCompare }

/-- Search results holding two packages whose names order differently under
the ICU-like collation and under codepoint order. -/
def cSrCollation : SearchResults :=
  [("B", { path := { abs := true, segs := ["B"] }, version := "1.0.0", duplicates := [] }),
   ("a", { path := { abs := true, segs := ["a"] }, version := "1.0.0", duplicates := [] })]

/-- Options naming only the platform, for the resolve and generate scenarios. -/
def cOptsIos : ProvidedOptions := { platform := "ios" }

/-- Environment for the fail-fast scenario: the `ios` resolver rejects on
the package named `bad`. -/
def cEnvFailing : LinkingEnv :=
  { bEnv with platforms := fun p => if p = "ios" then some plFailingOnBad else none }

/-- Search results for the fail-fast scenario: one resolvable package and
one whose resolution rejects. -/
def cSrFailing : SearchResults :=
  [("good", { path := { abs := true, segs := ["good"] }, version := "1.0.0", duplicates := [] }),
   ("bad", { path := { abs := true, segs := ["bad"] }, version := "1.0.0", duplicates := [] })]

/-- Folding with two step functions that agree on the members of the list
gives the same result. -/
theorem foldl_eq_of_mem_eq {α β : Type _} {f g : β → α → β} {l : List α}
    (h : ∀ a ∈ l, ∀ b, f b a = g b a) (init : β) :
    l.foldl f init = l.foldl g init := by
  induction l generalizing init with
  | nil => rfl
  | cons x xs ih =>
    simp only [List.foldl_cons]
    rw [h x (by simp)]
    exact ih (fun a ha b => h a (by simp [ha]) b) _

/-- A fold over `filterMap` is the fold that skips the filtered elements. -/
theorem foldl_filterMap_match {α β γ : Type _} {g : α → Option γ} {f : β → γ → β}
    (l : List α) (init : β) :
    (l.filterMap g).foldl f init =
      l.foldl (fun b a => match g a with | none => b | some c => f b c) init := by
  induction l generalizing init with
  | nil => rfl
  | cons x xs ih => cases hx : g x <;> simp [List.filterMap_cons, hx, ih]

/-- A fold over a `flatMap` is the nested fold. -/
theorem foldl_flatMap_eq {α β γ : Type _} {g : α → List γ} {f : β → γ → β}
    (l : List α) (init : β) :
    (l.flatMap g).foldl f init = l.foldl (fun b a => (g a).foldl f b) init := by
  induction l generalizing init with
  | nil => rfl
  | cons x xs ih => simp [List.flatMap_cons, List.foldl_append, ih]

/-- An invariant preserved by every step of a fold holds of the result. -/
theorem foldl_invariant {α β : Type _} {P : β → Prop} {f : β → α → β} {l : List α} {init : β}
    (h0 : P init) (hstep : ∀ b, ∀ a ∈ l, P b → P (f b a)) : P (l.foldl f init) := by
  induction l generalizing init with
  | nil => exact h0
  | cons x xs ih =>
    exact ih (hstep init x (by simp) h0) (fun b a ha hb => hstep b a (by simp [ha]) hb)

/-- Lookup distributes over list append, preferring the left list. -/
theorem assocGet_append {α β : Type _} [BEq α] (l₁ l₂ : List (α × β)) (k : α) :
    assocGet (l₁ ++ l₂) k = (assocGet l₁ k).or (assocGet l₂ k) := by
  simp only [assocGet, List.find?_append]
  cases List.find? (fun e => e.1 == k) l₁ <;> simp [Option.or]

/-- Lookup on a cons cell, phrased with propositional equality. -/
theorem assocGet_cons {α β : Type _} [BEq α] [LawfulBEq α] [DecidableEq α]
    {x : α × β} {l : List (α × β)} {k : α} :
    assocGet (x :: l) k = if x.1 = k then some x.2 else assocGet l k := by
  by_cases hx : x.1 = k
  · simp [assocGet, List.find?_cons_of_pos, hx]
  · simp [assocGet, List.find?_cons_of_neg, hx]

/-- Update on a cons cell, phrased with propositional equality. -/
theorem assocSet_cons {α β : Type _} [BEq α] [LawfulBEq α] [DecidableEq α]
    {x : α × β} {l : List (α × β)} {k : α} {v : β} :
    assocSet (x :: l) k v = if x.1 = k then (k, v) :: l else x :: assocSet l k v := by
  by_cases hx : x.1 = k <;> simp [assocSet, hx]

/-- Membership after an in-place update comes from the old list or is the
new entry. -/
theorem mem_assocSet {α β : Type _} [BEq α] [LawfulBEq α] [DecidableEq α]
    {l : List (α × β)} {k : α} {v : β} {e : α × β}
    (h : e ∈ assocSet l k v) : e ∈ l ∨ e = (k, v) := by
  induction l with
  | nil => simpa [assocSet] using h
  | cons x xs ih =>
    rw [assocSet_cons] at h
    by_cases hx : x.1 = k
    · simp only [hx, if_true] at h
      rcases List.mem_cons.mp h with h | h
      · exact Or.inr h
      · exact Or.inl (List.mem_cons_of_mem _ h)
    · simp only [hx, if_false] at h
      rcases List.mem_cons.mp h with h | h
      · exact Or.inl (h ▸ List.mem_cons_self _ _)
      · rcases ih h with h' | h'
        · exact Or.inl (List.mem_cons_of_mem _ h')
        · exact Or.inr h'

/-- Updating a key makes its lookup return the new value. -/
theorem assocGet_assocSet_self {α β : Type _} [BEq α] [LawfulBEq α] [DecidableEq α]
    (l : List (α × β)) (k : α) (v : β) :
    assocGet (assocSet l k v) k = some v := by
  induction l with
  | nil => simp [assocSet, assocGet]
  | cons x xs ih =>
    rw [assocSet_cons]
    by_cases hx : x.1 = k
    · simp [hx, assocGet_cons]
    · simpa [hx, assocGet_cons] using ih

/-- Updating one key leaves the lookup of any other key unchanged. -/
theorem assocGet_assocSet_ne {α β : Type _} [BEq α] [LawfulBEq α] [DecidableEq α]
    {l : List (α × β)} {k k' : α} (v : β)
    (h : k' ≠ k) : assocGet (assocSet l k v) k' = assocGet l k' := by
  induction l with
  | nil => simp [assocSet, assocGet_cons, Ne.symm h, assocGet]
  | cons x xs ih =>
    rw [assocSet_cons]
    by_cases hx : x.1 = k
    · simp [hx, assocGet_cons, Ne.symm h]
    · simp [hx, assocGet_cons, ih]

/-- Updating an existing key keeps the key list unchanged. -/
theorem assocSet_map_fst_of_get {α β : Type _} [BEq α] [LawfulBEq α] [DecidableEq α]
    {l : List (α × β)} {k : α} {w : β}
    (h : assocGet l k = some w) (v : β) : (assocSet l k v).map (·.1) = l.map (·.1) := by
  induction l with
  | nil => simp [assocGet] at h
  | cons x xs ih =>
    rw [assocSet_cons]
    by_cases hx : x.1 = k
    · simp [hx]
    · rw [assocGet_cons] at h
      simp only [hx, if_false, List.map_cons] at h ⊢
      rw [ih h]

/-- A lookup fails exactly when no entry has the key. -/
theorem assocGet_eq_none_iff {α β : Type _} [BEq α] [LawfulBEq α] {l : List (α × β)} {k : α} :
    assocGet l k = none ↔ ∀ e ∈ l, e.1 ≠ k := by
  simp [assocGet, List.find?_eq_none]

/-- A successful lookup names an entry of the list. -/
theorem mem_of_assocGet_eq_some {α β : Type _} [BEq α] [LawfulBEq α] {l : List (α × β)} {k : α} {v : β}
    (h : assocGet l k = some v) : (k, v) ∈ l := by
  simp only [assocGet, Option.map_eq_some'] at h
  rcases h with ⟨e, he, hev⟩
  have hk : e.1 = k := by simpa using List.find?_some he
  have := List.mem_of_find?_eq_some he
  rwa [show e = (k, v) from Prod.ext hk hev] at this

/-- With distinct keys, membership determines the lookup. -/
theorem assocGet_of_mem_of_nodup {α β : Type _} [BEq α] [LawfulBEq α] [DecidableEq α]
    {l : List (α × β)} {k : α} {v : β}
    (hnd : (l.map (·.1)).Nodup) (hm : (k, v) ∈ l) : assocGet l k = some v := by
  induction l with
  | nil => simp at hm
  | cons x xs ih =>
    simp only [List.map_cons, List.nodup_cons] at hnd
    rcases List.mem_cons.mp hm with h | h
    · simp [assocGet_cons, ← h]
    · have hx : x.1 ≠ k := by
        intro hk
        exact hnd.1 (by simpa [hk] using List.mem_map_of_mem (fun e => e.1) h)
      simpa [assocGet_cons, hx] using ih hnd.2 h

/-- Recording a new name appends it to the results. -/
theorem addRevision_of_none {rs : SearchResults} {n : String} (r : PackageRevision)
    (h : assocGet rs n = none) :
    addRevision rs n r = rs ++ [(n, { path := r.path, version := r.version, duplicates := [] })] := by
  simp [addRevision, h]

/-- The path recorded for a name is unaffected by later revisions of other
names and fixed by the first revision of the name itself. -/
theorem assocGet_addRevision_path (rs : SearchResults) (m n : String) (r : PackageRevision) :
    (assocGet (addRevision rs m r) n).map (·.path) =
      ((assocGet rs n).map (·.path)).or (if m = n then some r.path else none) := by
  cases hm : assocGet rs m with
  | none =>
    rw [addRevision_of_none r hm, assocGet_append]
    cases hn : assocGet rs n <;> by_cases hmn : m = n <;>
      simp [hn, hmn, assocGet_cons, assocGet, Option.or]
  | some prim =>
    simp only [addRevision, hm]
    by_cases hcond : r.path ≠ prim.path ∧ ∀ d ∈ prim.duplicates, d.path ≠ r.path
    · rw [if_pos hcond]
      by_cases hmn : m = n
      · subst hmn
        rw [assocGet_assocSet_self]
        simp [hm, Option.or]
      · rw [assocGet_assocSet_ne _ (fun h => hmn h.symm)]
        simp [hmn, Option.or_none]
    · rw [if_neg hcond]
      by_cases hmn : m = n
      · subst hmn
        simp [hm, Option.or]
      · simp [hmn, Option.or_none]

/-- Folding revisions into the results: the recorded path of a name is the
path already recorded, or else the one of the first candidate of the name. -/
theorem foldl_addRevision_path (cs : List (String × PackageRevision)) (rs : SearchResults) (n : String) :
    (assocGet (cs.foldl (fun rs c => addRevision rs c.1 c.2) rs) n).map (·.path) =
      ((assocGet rs n).map (·.path)).or (((cs.find? (fun c => c.1 == n)).map (·.2)).map (·.path)) := by
  induction cs generalizing rs with
  | nil => simp [Option.or_none]
  | cons c cs ih =>
    simp only [List.foldl_cons]
    rw [ih, assocGet_addRevision_path]
    by_cases hcn : c.1 = n
    · rw [List.find?_cons_of_pos _ (by simp [hcn])]
      simp [hcn, Option.or_assoc]
    · rw [List.find?_cons_of_neg _ (by simp [hcn])]
      simp [hcn, Option.or_none]

/-- Processing one search path is folding its surviving candidates into
the results. -/
theorem processSearchPath_eq_candidates (env : LinkingEnv) (options : EffectiveOptions)
    (rs : SearchResults) (sp : JSPath) :
    processSearchPath env options rs sp =
      (candidatesOf env options sp).foldl (fun rs c => addRevision rs c.1 c.2) rs := by
  unfold processSearchPath candidatesOf
  rw [foldl_filterMap_match]
  refine foldl_eq_of_mem_eq (fun a _ b => ?_) rs
  cases discoveredCandidate env options sp a <;> rfl

/-- The whole discovery is one fold of all candidates, across the search
paths in priority order. -/
theorem findModulesMerged_eq_fold (env : LinkingEnv) (options : EffectiveOptions) :
    findModulesMerged env options =
      (allCandidates env options).foldl (fun rs c => addRevision rs c.1 c.2) [] := by
  unfold findModulesMerged allCandidates
  rw [foldl_flatMap_eq]
  exact foldl_eq_of_mem_eq (fun sp _ rs => processSearchPath_eq_candidates env options rs sp) []

/-- The path recorded for a name is the path of the first candidate of that
name in discovery order. -/
theorem findModulesMerged_path (env : LinkingEnv) (options : EffectiveOptions) (n : String) :
    (assocGet (findModulesMerged env options) n).map (·.path) =
      (((allCandidates env options).find? (fun c => c.1 == n)).map (·.2)).map (·.path) := by
  rw [findModulesMerged_eq_fold, foldl_addRevision_path]
  simp [assocGet, Option.none_or]

/-- Surviving candidates never carry an excluded name. -/
theorem candidatesOf_not_excluded {env : LinkingEnv} {options : EffectiveOptions} {sp : JSPath}
    {c : String × PackageRevision} (hc : c ∈ candidatesOf env options sp) :
    jsIncludesOpt options.exclude c.1 = false := by
  rcases List.mem_filterMap.mp hc with ⟨q, _, hq⟩
  unfold discoveredCandidate at hq
  by_cases hskip : shouldSkipModule options (env.manifests (env.realpath (joinRel sp (dirnameSegs q)))).name
      (env.configs (configFileFullPath env sp q))
  · simp [hskip] at hq
  · simp only [hskip, if_neg, Bool.false_eq_true, not_false_eq_true, if_false, Option.some.injEq] at hq
    unfold shouldSkipModule at hskip
    rcases Bool.or_eq_false_iff.mp (Bool.eq_false_iff.mpr hskip) with ⟨h1, _⟩
    rw [← hq]
    exact h1

/-- Surviving candidates always declare the requested platform. -/
theorem candidatesOf_platform_declared {env : LinkingEnv} {options : EffectiveOptions} {sp : JSPath}
    {c : String × PackageRevision} (hc : c ∈ candidatesOf env options sp) :
    ∃ q ∈ uniqueConfigPaths (env.globResults sp),
      jsIncludesOpt (env.configs (configFileFullPath env sp q)).platforms options.platform = true := by
  rcases List.mem_filterMap.mp hc with ⟨q, hqmem, hq⟩
  refine ⟨q, hqmem, ?_⟩
  unfold discoveredCandidate at hq
  by_cases hskip : shouldSkipModule options (env.manifests (env.realpath (joinRel sp (dirnameSegs q)))).name
      (env.configs (configFileFullPath env sp q))
  · simp [hskip] at hq
  · unfold shouldSkipModule at hskip
    rcases Bool.or_eq_false_iff.mp (Bool.eq_false_iff.mpr hskip) with ⟨_, h2⟩
    simpa using h2

/-- Elements of an insertion are the inserted element or old elements. -/
theorem mem_jsSortInsert {le : α → α → Bool} {x y : α} {l : List α}
    (h : y ∈ jsSortInsert le x l) : y = x ∨ y ∈ l := by
  induction l with
  | nil => simpa [jsSortInsert] using h
  | cons z zs ih =>
    simp only [jsSortInsert] at h
    by_cases hz : le z x
    · rw [if_pos hz] at h
      rcases List.mem_cons.mp h with h1 | h1
      · exact Or.inr (List.mem_cons.mpr (Or.inl h1))
      · rcases ih h1 with h2 | h2
        · exact Or.inl h2
        · exact Or.inr (List.mem_cons_of_mem _ h2)
    · rw [if_neg hz] at h
      exact List.mem_cons.mp h

/-- Inserting into a sorted list with a transitive, total comparator keeps
it sorted. -/
theorem pairwise_jsSortInsert {le : α → α → Bool}
    (htrans : ∀ a b c, le a b = true → le b c = true → le a c = true)
    (htotal : ∀ a b, le a b = true ∨ le b a = true) (x : α) {l : List α}
    (h : l.Pairwise (fun a b => le a b = true)) :
    (jsSortInsert le x l).Pairwise (fun a b => le a b = true) := by
  induction l with
  | nil => simp [jsSortInsert]
  | cons z zs ih =>
    rcases List.pairwise_cons.mp h with ⟨hz, hzs⟩
    simp only [jsSortInsert]
    by_cases hle : le z x
    · rw [if_pos hle]
      refine List.pairwise_cons.mpr ⟨?_, ih hzs⟩
      intro y hy
      rcases mem_jsSortInsert hy with h' | h'
      · exact h' ▸ hle
      · exact hz y h'
    · rw [if_neg hle]
      have hxz : le x z = true := by
        rcases htotal x z with h'' | h''
        · exact h''
        · exact absurd h'' hle
      refine List.pairwise_cons.mpr ⟨?_, h⟩
      intro y hy
      rcases List.mem_cons.mp hy with h' | h'
      · exact h' ▸ hxz
      · exact htrans x z y hxz (hz y h')

/-- The model of `Array.prototype.sort` with a transitive, total comparator
produces a sorted list. -/
theorem pairwise_jsSortBy {le : α → α → Bool}
    (htrans : ∀ a b c, le a b = true → le b c = true → le a c = true)
    (htotal : ∀ a b, le a b = true ∨ le b a = true) (l : List α) :
    (jsSortBy le l).Pairwise (fun a b => le a b = true) := by
  induction l with
  | nil => simp [jsSortBy]
  | cons x xs ih => exact pairwise_jsSortInsert htrans htotal x ih

/-- Mapping the value of an `Except` does not change whether it is an error. -/
theorem isErrorE_map {e : Except ε α} (g : α → β) : isErrorE (e.map g) = isErrorE e := by
  cases e <;> rfl

/-- The model of `Promise.all`: when any element of the batch fails, the
whole batch fails. -/
theorem isErrorE_mapM {f : α → Except ε β} {l : List α} {x : α} (hx : x ∈ l)
    (he : isErrorE (f x) = true) : isErrorE (l.mapM f) = true := by
  induction l with
  | nil => simp at hx
  | cons y ys ih =>
    rw [List.mapM_cons]
    cases hy : f y with
    | error e => simp [hy, isErrorE, Bind.bind, Except.bind]
    | ok b =>
      rcases List.mem_cons.mp hx with h | h
      · subst h
        rw [hy] at he
        simp [isErrorE] at he
      · have hys := ih h
        cases hmapM : ys.mapM f with
        | error e => simp [hy, hmapM, isErrorE, Bind.bind, Except.bind]
        | ok bs =>
          rw [hmapM] at hys
          simp [isErrorE] at hys

/-- A nonempty segment list is its dirname followed by its basename. -/
theorem dirname_append_basename {p : List String} (h : p ≠ []) :
    dirnameSegs p ++ [basenameSegs p] = p := by
  induction p with
  | nil => exact absurd rfl h
  | cons a rest ih =>
    cases rest with
    | nil => simp [dirnameSegs, basenameSegs]
    | cons b t =>
      have h2 := ih (by simp)
      simp only [dirnameSegs, basenameSegs] at h2 ⊢
      simp only [List.getLastD_cons] at h2
      simp only [List.dropLast_cons₂, List.getLastD_cons, List.cons_append]
      exact congrArg (a :: ·) h2

/-- The basename of a directory joined with a filename is the filename. -/
theorem basename_concat (d : List String) (x : String) : basenameSegs (d ++ [x]) = x := by
  simp [basenameSegs, List.getLastD_concat]

/-- The dirname of a directory joined with a filename is the directory. -/
theorem dirname_concat (d : List String) (x : String) : dirnameSegs (d ++ [x]) = d := by
  simp [dirnameSegs, List.dropLast_concat]

/-- The priority of a config path, by case on its basename. -/
theorem configPriority_eq (p : List String) :
    configPriority p =
      if basenameSegs p = "unimodule.json" then 0
      else if basenameSegs p = "expo-module.config.json" then 1 else -1 := by
  simp only [configPriority, EXPO_MODULE_CONFIG_FILENAMES, jsIndexOf, jsIndexOfAux]
  by_cases h0 : basenameSegs p = "unimodule.json"
  · simp [h0]
  · simp only [Ne.symm h0, if_false, h0]
    by_cases h1 : basenameSegs p = "expo-module.config.json"
    · simp [h1]
    · simp [Ne.symm h1, h1]

/-- Config priorities never exceed the one of the current filename. -/
theorem configPriority_le_one (p : List String) : configPriority p ≤ 1 := by
  rw [configPriority_eq]
  split <;> try split
  all_goals omega

/-- Priority one identifies the current, highest-priority filename. -/
theorem configPriority_eq_one_iff (p : List String) :
    configPriority p = 1 ↔ basenameSegs p = "expo-module.config.json" := by
  rw [configPriority_eq]
  constructor
  · intro h
    by_cases h0 : basenameSegs p = "unimodule.json"
    · simp [h0] at h
    · by_cases h1 : basenameSegs p = "expo-module.config.json"
      · exact h1
      · simp [h0, h1] at h
  · intro h
    have h0 : basenameSegs p ≠ "unimodule.json" := by
      rw [h]; decide
    simp [h0, h]

/-- A path of priority one with dirname `d` is the highest-priority config
path of `d`. -/
theorem priority_one_path {p : List String} {d : List String}
    (h1 : configPriority p = 1) (hd : dirnameSegs p = d) :
    p = d ++ ["expo-module.config.json"] := by
  have hb : basenameSegs p = "expo-module.config.json" := (configPriority_eq_one_iff p).mp h1
  have hne : p ≠ [] := by
    intro h
    rw [h] at hb
    exact absurd hb (by decide)
  rw [← dirname_append_basename hne, hd, hb]

/-- The joined highest-priority config path has priority one. -/
theorem configPriority_high (d : List String) :
    configPriority (d ++ ["expo-module.config.json"]) = 1 :=
  (configPriority_eq_one_iff _).mpr (basename_concat d _)

/-- One reduce step keeps every accumulator entry keyed by the dirname of
its recorded config path. -/
theorem uniqueConfigStep_dirname_inv {acc : List (List String × List String)} {p : List String}
    (h : ∀ e ∈ acc, e.1 = dirnameSegs e.2) :
    ∀ e ∈ uniqueConfigStep acc p, e.1 = dirnameSegs e.2 := by
  intro e he
  simp only [uniqueConfigStep] at he
  split at he
  · rcases List.mem_append.mp he with h1 | h1
    · exact h e h1
    · simp only [List.mem_singleton] at h1
      rw [h1]
  · split at he
    · rcases mem_assocSet he with h1 | h1
      · exact h e h1
      · rw [h1]
    · exact h e he

/-- One reduce step keeps the accumulator keys distinct. -/
theorem uniqueConfigStep_keys_nodup {acc : List (List String × List String)} {p : List String}
    (h : (acc.map (·.1)).Nodup) : ((uniqueConfigStep acc p).map (·.1)).Nodup := by
  simp only [uniqueConfigStep]
  split
  next hg =>
    have hd : ∀ e ∈ acc, e.1 ≠ dirnameSegs p := assocGet_eq_none_iff.mp hg
    rw [List.map_append]
    refine List.nodup_append.mpr ⟨h, List.nodup_singleton _, ?_⟩
    intro a ha hb
    simp only [List.map_cons, List.map_nil, List.mem_singleton] at hb
    rcases List.mem_map.mp ha with ⟨e, he, hea⟩
    exact hd e he (by rw [hea, hb])
  next ex hg =>
    split
    · rw [assocSet_map_fst_of_get hg]
      exact h
    · exact h

/-- Once the highest-priority config path of a directory is recorded, no
later reduce step replaces it. -/
theorem uniqueConfigStep_high_sticky {acc : List (List String × List String)} {p : List String}
    {d : List String}
    (h : assocGet acc d = some (d ++ ["expo-module.config.json"])) :
    assocGet (uniqueConfigStep acc p) d = some (d ++ ["expo-module.config.json"]) := by
  simp only [uniqueConfigStep]
  split
  next hg =>
    rw [assocGet_append, h]
    simp [Option.or]
  next ex hg =>
    by_cases hdp : dirnameSegs p = d
    · rw [hdp] at hg
      rw [hg] at h
      have hex : ex = d ++ ["expo-module.config.json"] := Option.some.inj h
      have hle := configPriority_le_one p
      rw [if_neg (by rw [hex, configPriority_high d]; omega), hg, hex]
    · split
      · rw [assocGet_assocSet_ne _ (fun he => hdp he.symm)]
        exact h
      · exact h

/-- Folding the reduce over paths containing the highest-priority config
path of a directory records exactly that path for the directory. -/
theorem ufold_high {d : List String} (paths : List (List String)) :
    ∀ (acc : List (List String × List String)),
    (∀ e ∈ acc, e.1 = dirnameSegs e.2) →
    ((d ++ ["expo-module.config.json"]) ∈ paths ∨
      assocGet acc d = some (d ++ ["expo-module.config.json"])) →
    assocGet (paths.foldl uniqueConfigStep acc) d = some (d ++ ["expo-module.config.json"]) := by
  induction paths with
  | nil =>
    intro acc _ hd
    rcases hd with hd | hd
    · simp at hd
    · simpa using hd
  | cons p ps ih =>
    intro acc hinv hd
    rw [List.foldl_cons]
    apply ih _ (uniqueConfigStep_dirname_inv hinv)
    rcases hd with hd | hd
    · rcases List.mem_cons.mp hd with hp | hp
      · right
        rw [← hp]
        simp only [uniqueConfigStep, dirname_concat]
        split
        next hg =>
          rw [assocGet_append, hg, assocGet_cons]
          simp [Option.or, assocGet]
        next ex hg =>
          have hexd : dirnameSegs ex = d :=
            (hinv (d, ex) (mem_of_assocGet_eq_some hg)).symm
          split
          next hgt => exact assocGet_assocSet_self acc d _
          next hgt =>
            have hex1 : configPriority ex = 1 := by
              have h1 := configPriority_high d
              have h2 := configPriority_le_one ex
              omega
            rw [hg, priority_one_path hex1 hexd]
      · left
        exact hp
    · right
      exact uniqueConfigStep_high_sticky hd

/-- The accumulator keys every entry by the dirname of its config path. -/
theorem uniqueConfigAcc_dirname_inv (paths : List (List String)) :
    ∀ e ∈ uniqueConfigAcc paths, e.1 = dirnameSegs e.2 := by
  unfold uniqueConfigAcc
  exact foldl_invariant
    (P := fun (acc : List (List String × List String)) => ∀ e ∈ acc, e.1 = dirnameSegs e.2)
    (by simp) (fun acc p _ hacc => uniqueConfigStep_dirname_inv hacc)

/-- The accumulator keys are distinct. -/
theorem uniqueConfigAcc_keys_nodup (paths : List (List String)) :
    ((uniqueConfigAcc paths).map (·.1)).Nodup := by
  unfold uniqueConfigAcc
  refine foldl_invariant
    (P := fun (acc : List (List String × List String)) => ((acc.map (·.1))).Nodup)
    ?_ (fun acc p _ hacc => uniqueConfigStep_keys_nodup hacc)
  simp

/-- A directory listing its highest-priority config file gets that file
selected. -/
theorem high_mem_uniqueConfigPaths {d : List String} {paths : List (List String)}
    (h : (d ++ ["expo-module.config.json"]) ∈ paths) :
    (d ++ ["expo-module.config.json"]) ∈ uniqueConfigPaths paths := by
  have hget := ufold_high paths [] (by simp) (Or.inl h)
  unfold uniqueConfigPaths
  exact List.mem_map.mpr ⟨(d, d ++ ["expo-module.config.json"]),
    mem_of_assocGet_eq_some hget, rfl⟩

/-- A directory listing its highest-priority config file never gets its
lower-priority file selected. -/
theorem low_not_mem_uniqueConfigPaths {d : List String} {paths : List (List String)}
    (h : (d ++ ["expo-module.config.json"]) ∈ paths) :
    (d ++ ["unimodule.json"]) ∉ uniqueConfigPaths paths := by
  intro hmem
  unfold uniqueConfigPaths at hmem
  rcases List.mem_map.mp hmem with ⟨e, he, he2⟩
  have hkey : e.1 = dirnameSegs e.2 := uniqueConfigAcc_dirname_inv paths e he
  have hd : e.1 = d := by rw [hkey, he2, dirname_concat]
  have heq : e = (d, d ++ ["unimodule.json"]) := Prod.ext hd he2
  have hget : assocGet (uniqueConfigAcc paths) d = some (d ++ ["unimodule.json"]) :=
    assocGet_of_mem_of_nodup (uniqueConfigAcc_keys_nodup paths) (heq ▸ he)
  have hhigh := ufold_high paths [] (by simp) (Or.inl h)
  rw [show paths.foldl uniqueConfigStep [] = uniqueConfigAcc paths from rfl, hget] at hhigh
  have hlists := List.append_cancel_left (Option.some.inj hhigh)
  simp at hlists

/-- An exclude list given in the provided options survives the merge
unchanged (the provided layer wins). -/
theorem merged_exclude_of_provided {env : LinkingEnv} {p : ProvidedOptions} {l : List String}
    (h : p.exclude = some l) : (mergeLinkingOptionsAsync env p).exclude = some l := by
  simp [mergeLinkingOptionsAsync, objectAssign, toLayer, h]

/-- One revision fold step preserves the duplicate-list invariants of every
recorded name. -/
theorem addRevision_preserves_good {rs : SearchResults}
    (h : ∀ n prim, assocGet rs n = some prim →
      (∀ d ∈ prim.duplicates, d.path ≠ prim.path) ∧ (prim.duplicates.map (·.path)).Nodup)
    (m : String) (r : PackageRevision) :
    ∀ n prim, assocGet (addRevision rs m r) n = some prim →
      (∀ d ∈ prim.duplicates, d.path ≠ prim.path) ∧ (prim.duplicates.map (·.path)).Nodup := by
  intro n prim hget
  cases hm : assocGet rs m with
  | none =>
    rw [addRevision_of_none r hm, assocGet_append] at hget
    cases hn : assocGet rs n with
    | some q =>
      rw [hn] at hget
      simp only [Option.or] at hget
      exact Option.some.inj hget ▸ h n q hn
    | none =>
      rw [hn] at hget
      simp only [Option.none_or, assocGet_cons] at hget
      by_cases hmn : m = n
      · rw [if_pos hmn] at hget
        rw [← Option.some.inj hget]
        simp
      · rw [if_neg hmn] at hget
        simp [assocGet] at hget
  | some q =>
    simp only [addRevision, hm] at hget
    split at hget
    next hcond =>
      by_cases hmn : m = n
      · subst hmn
        rw [assocGet_assocSet_self] at hget
        rw [← Option.some.inj hget]
        rcases h m q hm with ⟨h1, h2⟩
        constructor
        · intro dd hdd
          rcases List.mem_append.mp hdd with hdd | hdd
          · exact h1 dd hdd
          · simp only [List.mem_singleton] at hdd
            rw [hdd]
            exact hcond.1
        · simp only [List.map_append]
          refine List.nodup_append.mpr ⟨h2, by simp, ?_⟩
          intro a ha hb
          simp only [List.map_cons, List.map_nil, List.mem_singleton] at hb
          rcases List.mem_map.mp ha with ⟨dd, hdd, hdda⟩
          exact hcond.2 dd hdd (by rw [hdda, hb])
      · rw [assocGet_assocSet_ne _ (fun he => hmn he.symm)] at hget
        exact h n prim hget
    next hcond =>
      exact h n prim hget

/-- The duplicate lists produced by the whole discovery never contain the
primary path and never repeat a path. -/
theorem findModulesAsync_good (env : LinkingEnv) (p : ProvidedOptions) :
    ∀ n prim, assocGet (findModulesAsync env p) n = some prim →
      (∀ d ∈ prim.duplicates, d.path ≠ prim.path) ∧ (prim.duplicates.map (·.path)).Nodup := by
  unfold findModulesAsync
  rw [findModulesMerged_eq_fold]
  refine foldl_invariant
    (P := fun (rs : SearchResults) => ∀ n prim, assocGet rs n = some prim →
      (∀ d ∈ prim.duplicates, d.path ≠ prim.path) ∧ (prim.duplicates.map (·.path)).Nodup)
    ?_ ?_
  · intro n prim hget
    simp [assocGet] at hget
  · intro rs c _ hrs
    exact addRevision_preserves_good hrs c.1 c.2

/-- Claim C4: in the SearchResults produced by findModulesAsync, for every
name the duplicates list never contains the primary revision's own path and
never contains the same path twice; re-discovering a canonical path already
recorded is a no-op. -/
theorem C4_duplicates_invariant (env : LinkingEnv) (provided : ProvidedOptions)
    (n : String) (prim : PrimaryRevision)
    (h : assocGet (findModulesAsync env provided) n = some prim) :
    (∀ d ∈ prim.duplicates, d.path ≠ prim.path) ∧ (prim.duplicates.map (·.path)).Nodup :=
  findModulesAsync_good env provided n prim h

/-- Witness for C4 on the concrete two-search-path scenario, where the
package `dup-pkg` is recorded with one duplicate. -/
theorem C4_duplicates_invariant_witness :
    ({ path := { abs := true, segs := ["w", "b", "dup"] }, version := "2.0.0" } : PackageRevision).path ≠
      ({ abs := true, segs := ["w", "a", "dup"] } : JSPath) ∧
    (([{ path := { abs := true, segs := ["w", "b", "dup"] }, version := "2.0.0" }] :
        List PackageRevision).map (·.path)).Nodup := by
  have h := C4_duplicates_invariant wEnv wOpts "dup-pkg"
    { path := { abs := true, segs := ["w", "a", "dup"] }, version := "1.0.0",
      duplicates := [{ path := { abs := true, segs := ["w", "b", "dup"] }, version := "2.0.0" }] }
    (by decide)
  exact ⟨h.1 _ (by decide), h.2⟩

/-- Claim C5: no name contained in the exclude set given in the options
appears as a key of the SearchResults returned by findModulesAsync; an
excluded package is skipped without error. -/
theorem C5_exclusion (env : LinkingEnv) (provided : ProvidedOptions)
    (l : List String) (n : String)
    (hex : provided.exclude = some l) (hn : n ∈ l) :
    assocGet (findModulesAsync env provided) n = none := by
  unfold findModulesAsync
  have hm : (mergeLinkingOptionsAsync env provided).exclude = some l :=
    merged_exclude_of_provided hex
  have hpath := findModulesMerged_path env (mergeLinkingOptionsAsync env provided) n
  have hfind : ((allCandidates env (mergeLinkingOptionsAsync env provided)).find?
      (fun c => c.1 == n)) = none := by
    apply List.find?_eq_none.mpr
    intro c hc
    rcases List.mem_flatMap.mp hc with ⟨sp, _, hcsp⟩
    have hni := candidatesOf_not_excluded hcsp
    rw [hm] at hni
    simp only [jsIncludesOpt] at hni
    intro hbeq
    have hc1 : c.1 = n := by simpa using hbeq
    rw [hc1] at hni
    have h2 : l.contains n = true := List.elem_eq_true_of_mem hn
    rw [h2] at hni
    simp at hni
  rw [hfind] at hpath
  simp only [Option.map_none'] at hpath
  exact Option.map_eq_none'.mp hpath

/-- Witness for C5: the package named `ex-pkg` is discovered on disk in the
concrete scenario but excluded by the provided options. -/
theorem C5_exclusion_witness :
    assocGet (findModulesAsync wEnv wOpts) "ex-pkg" = none :=
  C5_exclusion wEnv wOpts ["ex-pkg"] "ex-pkg" rfl (by decide)

/-- Binding a pure continuation does not change whether an `Except` is an
error. -/
theorem isErrorE_bind_pure {m : Except ε α} (g : α → β) :
    isErrorE (m >>= fun v => pure (g v)) = isErrorE m := by
  cases m <;> rfl

/-- Claim C6: if any single platform-capability invocation made by
resolveModulesAsync fails, the whole resolve step fails; the error
propagates and no descriptor list is returned. -/
theorem C6_fail_fast (env : LinkingEnv) (sr : SearchResults) (options : ProvidedOptions)
    (pl : PlatformLinking) (e : String) (entry : String × PrimaryRevision)
    (hpl : env.platforms options.platform = some pl)
    (hmem : entry ∈ sr)
    (hfail : pl.resolveModuleAsync entry.1 entry.2 options = Except.error e) :
    isErrorE (resolveModulesAsync env sr options) = true := by
  unfold resolveModulesAsync
  rw [hpl]
  have herr := isErrorE_mapM (f := fun entry : String × PrimaryRevision =>
      (pl.resolveModuleAsync entry.1 entry.2 options).map (fun res =>
        res.map (fun resolvedModule =>
          ({ packageName := resolvedModule.packageName.getD entry.1
             packageVersion := resolvedModule.packageVersion.getD entry.2.version
             extra := resolvedModule.extra } : ModuleDescriptor))))
    hmem (by rw [isErrorE_map, hfail]; rfl)
  exact Eq.trans (isErrorE_bind_pure _) herr

/-- Witness for C6: the `ios` resolver rejects on the package named `bad`,
and the whole resolve call for the two-package results is an error. -/
theorem C6_fail_fast_witness :
    isErrorE (resolveModulesAsync cEnvFailing cSrFailing cOptsIos) = true :=
  C6_fail_fast cEnvFailing cSrFailing cOptsIos plFailingOnBad "resolver crashed"
    ("bad", { path := { abs := true, segs := ["bad"] }, version := "1.0.0", duplicates := [] })
    rfl (by decide) rfl

/-- Claim C7: for every platform identifier for which no emitter exists,
generatePackageListAsync returns normally (the function is total and the
failure is caught) without producing an artifact. -/
theorem C7_graceful_unsupported_platform (env : LinkingEnv) (modules : List ModuleDescriptor)
    (options : ProvidedOptions)
    (h : env.platforms options.platform = none) :
    generatePackageListAsync env modules options = none := by
  simp [generatePackageListAsync, h]

/-- Witness for C7: the bare environment has no platform capabilities, so
generation for `ios` produces no artifact and returns normally. -/
theorem C7_graceful_unsupported_platform_witness :
    bEnv.platforms cOptsIos.platform = none ∧
    generatePackageListAsync bEnv [] cOptsIos = none :=
  ⟨rfl, C7_graceful_unsupported_platform bEnv [] cOptsIos rfl⟩

/-- Claim C10: a package whose highest-priority config file parses but
declares no platforms field is silently skipped by findModulesAsync,
exactly like one whose platforms set lacks the requested platform, and no
error is raised (the discovery is total and returns an empty mapping when
every config lacks the field). -/
theorem C10_missing_platforms_skipped (env : LinkingEnv) (provided : ProvidedOptions)
    (hall : ∀ p, (env.configs p).platforms = none) :
    findModulesAsync env provided = [] ∧
    (∀ (options : EffectiveOptions) (name : String) (l : List String),
      options.platform ∉ l →
      shouldSkipModule options name { platforms := none } =
        shouldSkipModule options name { platforms := some l }) := by
  constructor
  · unfold findModulesAsync
    rw [findModulesMerged_eq_fold]
    have hcand : allCandidates env (mergeLinkingOptionsAsync env provided) = [] := by
      unfold allCandidates
      rw [List.flatMap_eq_nil_iff]
      intro sp _
      unfold candidatesOf
      rw [List.filterMap_eq_nil]
      intro q _
      simp [discoveredCandidate, shouldSkipModule, jsIncludesOpt, hall]
    rw [hcand]
    rfl
  · intro options name l hl
    cases hcon : l.contains options.platform with
    | true => exact absurd (List.mem_of_elem_eq_true hcon) hl
    | false =>
      simp only [shouldSkipModule, jsIncludesOpt]
      rw [hcon]

/-- Witness for C10: the concrete scenario with every config stripped of
its platforms field yields an empty result, and the skip decision at a
concrete option set is the same for a missing field and for a mismatching
platform list. -/
theorem C10_missing_platforms_skipped_witness :
    findModulesAsync wEnvNoPlatforms wOpts = [] ∧
    shouldSkipModule (⟨"ios", [], none, none, none⟩ : EffectiveOptions) "pkg" { platforms := none } =
      shouldSkipModule (⟨"ios", [], none, none, none⟩ : EffectiveOptions) "pkg" { platforms := some ["android"] } :=
  ⟨(C10_missing_platforms_skipped wEnvNoPlatforms wOpts (fun _ => rfl)).1,
   (C10_missing_platforms_skipped wEnvNoPlatforms wOpts (fun _ => rfl)).2
     _ "pkg" ["android"] (by decide)⟩

/-- Claim C8: for a non-empty explicit search-path list the resolver maps
each entry to an absolute path relative to cwd, preserving order and
length; for a null or empty list it returns the default ancestor-derived
node_modules list, and when no ancestor manifest exists that default is the
empty list, not an error. -/
theorem C8_search_path_resolution (env : LinkingEnv) (cwd : JSPath) (sps : List JSPath)
    (hne : sps ≠ []) (habs : cwd.abs = true) :
    (resolveSearchPathsAsync env (some sps) cwd = sps.map (resolvePath cwd)) ∧
    ((resolveSearchPathsAsync env (some sps) cwd).length = sps.length) ∧
    (∀ i (hi : i < sps.length) (hi2 : i < (resolveSearchPathsAsync env (some sps) cwd).length),
      (resolveSearchPathsAsync env (some sps) cwd).get ⟨i, hi2⟩ = resolvePath cwd (sps.get ⟨i, hi⟩)) ∧
    (∀ q ∈ resolveSearchPathsAsync env (some sps) cwd, q.abs = true) ∧
    (resolveSearchPathsAsync env none cwd = findDefaultPathsAsync env cwd) ∧
    (resolveSearchPathsAsync env (some []) cwd = findDefaultPathsAsync env cwd) ∧
    ((∀ a ∈ ancestorDirs cwd, env.hasPackageJson a = false) →
      resolveSearchPathsAsync env none cwd = []) := by
  have hmap : resolveSearchPathsAsync env (some sps) cwd = sps.map (resolvePath cwd) := by
    simp only [resolveSearchPathsAsync]
    rw [if_pos (List.length_pos.mpr hne)]
  refine ⟨hmap, by rw [hmap, List.length_map], ?_, ?_, rfl, by simp [resolveSearchPathsAsync], ?_⟩
  · intro i hi hi2
    simp only [hmap, List.get_eq_getElem, List.getElem_map]
  · intro q hq
    rw [hmap] at hq
    rcases List.mem_map.mp hq with ⟨p, _, hpq⟩
    rw [← hpq]
    unfold resolvePath
    by_cases hp : p.abs <;> simp [hp, habs]
  · intro h
    have hfind : findUp env cwd = none := by
      unfold findUp
      rw [List.find?_eq_none.mpr (fun a ha => by simp [h a ha])]
      rfl
    simp only [resolveSearchPathsAsync, findDefaultPathsAsync, findDefaultPathsGo, hfind]

/-- Witness for C8 on the bare environment: one relative explicit path is
resolved against cwd, and with no manifest anywhere the default list is
empty. -/
theorem C8_search_path_resolution_witness :
    (resolveSearchPathsAsync bEnv (some [{ abs := false, segs := ["x"] }]) { abs := true, segs := ["q"] } =
      [{ abs := true, segs := ["q", "x"] }]) ∧
    ((resolveSearchPathsAsync bEnv (some [{ abs := false, segs := ["x"] }]) { abs := true, segs := ["q"] }).length = 1) ∧
    (resolveSearchPathsAsync bEnv none { abs := true, segs := ["q"] } =
      findDefaultPathsAsync bEnv { abs := true, segs := ["q"] }) ∧
    (resolveSearchPathsAsync bEnv none { abs := true, segs := ["q"] } = []) := by
  have h := C8_search_path_resolution bEnv { abs := true, segs := ["q"] }
    [{ abs := false, segs := ["x"] }] (by decide) rfl
  exact ⟨by rw [h.1]; decide, h.2.1, h.2.2.2.2.1, h.2.2.2.2.2.2 (by decide)⟩

/-- Claim C9: mergeLinkingOptionsAsync merges exactly three layers
shallowly with later layers overriding earlier ones on top-level keys only
(base autolinking section, then its platform sub-section, then the provided
options); a missing root manifest yields an empty base layer; and the
returned searchPaths field is always the search-path resolver applied to
the merged searchPaths value. -/
theorem C9_three_layer_merge (env : LinkingEnv) (provided : ProvidedOptions)
    (base platf : OptionsLayer)
    (hplat : provided.platform ≠ "")
    (hbase : ((rootAutolinkingConfig env).map (·.base)).getD {} = base)
    (hplatf : ((rootAutolinkingConfig env).bind (·.byPlatform provided.platform)).getD {} = platf) :
    (mergeLinkingOptionsAsync env provided).platform = provided.platform ∧
    (mergeLinkingOptionsAsync env provided).exclude =
      (provided.exclude <|> platf.exclude <|> base.exclude) ∧
    (mergeLinkingOptionsAsync env provided).target =
      (provided.target <|> platf.target <|> base.target) ∧
    (mergeLinkingOptionsAsync env provided).nsp =
      (provided.nsp <|> platf.nsp <|> base.nsp) ∧
    (mergeLinkingOptionsAsync env provided).searchPaths =
      resolveSearchPathsAsync env
        (provided.searchPaths <|> platf.searchPaths <|> base.searchPaths) env.cwd ∧
    (findPackageJsonPathAsync env = none → rootAutolinkingConfig env = none) := by
  subst hbase hplatf
  simp only [mergeLinkingOptionsAsync]
  rw [if_neg hplat]
  simp only [objectAssign, toLayer, Option.orElse_none]
  refine ⟨trivial, trivial, trivial, trivial, trivial, fun h => ?_⟩
  unfold rootAutolinkingConfig
  rw [h]

/-- Witness for C9 on the concrete scenario: the provided exclude wins over
the base exclude, the ios sub-section supplies the target, and the search
paths are the resolved provided ones. -/
theorem C9_three_layer_merge_witness :
    (mergeLinkingOptionsAsync wEnv wOpts).platform = "ios" ∧
    (mergeLinkingOptionsAsync wEnv wOpts).exclude = some ["ex-pkg"] ∧
    (mergeLinkingOptionsAsync wEnv wOpts).target = some "t-ios" ∧
    (mergeLinkingOptionsAsync wEnv wOpts).searchPaths =
      resolveSearchPathsAsync wEnv (some [wSp1, wSp2]) wEnv.cwd := by
  have h := C9_three_layer_merge wEnv wOpts wAutolinking.base { target := some "t-ios" }
    (by decide) (by decide) (by decide)
  refine ⟨h.1, ?_, ?_, ?_⟩
  · rw [h.2.1]; decide
  · rw [h.2.2.1]; decide
  · rw [h.2.2.2.2.1]; rfl

/-- Claim C3: when two search paths scanned in priority order both yield a
qualifying package of the same name at different canonical locations, the
primary revision recorded for that name carries the path found via the
earliest search path containing the name, and the later location is never
the primary. -/
theorem C3_primary_first (env : LinkingEnv) (provided : ProvidedOptions)
    (options : EffectiveOptions) (hopts : mergeLinkingOptionsAsync env provided = options)
    (n : String) (i j : Nat) (hij : i < j)
    (hi : i < options.searchPaths.length) (hj : j < options.searchPaths.length)
    (r r' : PackageRevision)
    (hfirst : (candidatesOf env options (options.searchPaths.get ⟨i, hi⟩)).find?
        (fun c => c.1 == n) = some (n, r))
    (hearlier : ∀ sp ∈ options.searchPaths.take i,
        (candidatesOf env options sp).find? (fun c => c.1 == n) = none)
    (hlater : (n, r') ∈ candidatesOf env options (options.searchPaths.get ⟨j, hj⟩))
    (hdiff : r'.path ≠ r.path) :
    (assocGet (findModulesAsync env provided) n).map (·.path) = some r.path ∧
    (assocGet (findModulesAsync env provided) n).map (·.path) ≠ some r'.path := by
  have hpath : (assocGet (findModulesAsync env provided) n).map (·.path) = some r.path := by
    unfold findModulesAsync
    rw [hopts, findModulesMerged_path]
    unfold allCandidates
    rw [List.find?_flatMap]
    have hsplit : options.searchPaths =
        options.searchPaths.take i ++
          options.searchPaths.get ⟨i, hi⟩ :: options.searchPaths.drop (i + 1) := by
      rw [List.get_eq_getElem, ← List.drop_eq_getElem_cons hi, List.take_append_drop]
    conv_lhs => rw [hsplit]
    rw [List.findSome?_append,
      List.findSome?_eq_none.mpr (fun sp hsp => hearlier sp hsp), Option.none_or,
      List.findSome?_cons, hfirst]
    rfl
  refine ⟨hpath, ?_⟩
  rw [hpath]
  intro heq
  exact hdiff (Option.some.inj heq).symm

/-- Witness for C3 on the concrete scenario: `dup-pkg` is present under
both search paths at different canonical locations, and the recorded
primary is the one from the first search path. -/
theorem C3_primary_first_witness :
    (assocGet (findModulesAsync wEnv wOpts) "dup-pkg").map (·.path) =
      some { abs := true, segs := ["w", "a", "dup"] } ∧
    (assocGet (findModulesAsync wEnv wOpts) "dup-pkg").map (·.path) ≠
      some { abs := true, segs := ["w", "b", "dup"] } :=
  C3_primary_first wEnv wOpts (mergeLinkingOptionsAsync wEnv wOpts) rfl
    "dup-pkg" 0 1 (by decide) (by decide) (by decide)
    { path := { abs := true, segs := ["w", "a", "dup"] }, version := "1.0.0" }
    { path := { abs := true, segs := ["w", "b", "dup"] }, version := "2.0.0" }
    (by decide) (by simp) (by decide) (by decide)

/-- Claim C2: when a package directory lists both recognized config
filenames, only the highest-priority filename is selected (the
lower-priority one never is), and the outcome of processing the search
path does not depend on the filesystem content of any non-selected config
file; in particular the lower-priority file content is never read. -/
theorem C2_priority_file_precedence
    (env₁ env₂ : LinkingEnv) (options : EffectiveOptions) (rs : SearchResults) (sp : JSPath)
    (d : List String)
    (hlow : (d ++ ["unimodule.json"]) ∈ env₁.globResults sp)
    (hhigh : (d ++ ["expo-module.config.json"]) ∈ env₁.globResults sp)
    (hglob : env₁.globResults sp = env₂.globResults sp)
    (hreal : ∀ q ∈ uniqueConfigPaths (env₁.globResults sp),
      env₁.realpath (joinRel sp (dirnameSegs q)) = env₂.realpath (joinRel sp (dirnameSegs q)))
    (hmani : ∀ q ∈ uniqueConfigPaths (env₁.globResults sp),
      env₁.manifests (env₁.realpath (joinRel sp (dirnameSegs q))) =
        env₂.manifests (env₁.realpath (joinRel sp (dirnameSegs q))))
    (hconf : ∀ q ∈ uniqueConfigPaths (env₁.globResults sp),
      env₁.configs (configFileFullPath env₁ sp q) = env₂.configs (configFileFullPath env₁ sp q)) :
    (d ++ ["expo-module.config.json"]) ∈ uniqueConfigPaths (env₁.globResults sp) ∧
    (d ++ ["unimodule.json"]) ∉ uniqueConfigPaths (env₁.globResults sp) ∧
    processSearchPath env₁ options rs sp = processSearchPath env₂ options rs sp := by
  refine ⟨high_mem_uniqueConfigPaths hhigh, low_not_mem_uniqueConfigPaths hhigh, ?_⟩
  unfold processSearchPath
  rw [← hglob]
  refine foldl_eq_of_mem_eq (fun q hq b => ?_) rs
  have hr := hreal q hq
  have hm2 := hmani q hq
  have hc2 := hconf q hq
  simp only [configFileFullPath] at hc2
  have hdc : discoveredCandidate env₁ options sp q = discoveredCandidate env₂ options sp q := by
    simp only [discoveredCandidate, configFileFullPath]
    simp only [← hr, ← hm2, ← hc2]
  rw [hdc]

/-- Witness for C2 on the concrete scenario: the `dup` directory lists both
filenames under the first search path; the high-priority file is selected,
the low-priority one is not, and changing the low-priority file content
does not change the processing outcome. -/
theorem C2_priority_file_precedence_witness :
    (["dup"] ++ ["expo-module.config.json"]) ∈ uniqueConfigPaths (wEnv.globResults wSp1) ∧
    (["dup"] ++ ["unimodule.json"]) ∉ uniqueConfigPaths (wEnv.globResults wSp1) ∧
    processSearchPath wEnv (mergeLinkingOptionsAsync wEnv wOpts) [] wSp1 =
      processSearchPath wEnvLowChanged (mergeLinkingOptionsAsync wEnv wOpts) [] wSp1 :=
  C2_priority_file_precedence wEnv wEnvLowChanged (mergeLinkingOptionsAsync wEnv wOpts) [] wSp1
    ["dup"] (by decide) (by decide) rfl (fun q _ => rfl) (fun q _ => rfl) (by decide)

/-- Destructuring of a successful bind of a pure continuation: the bound
computation succeeded and the continuation produced the final value. -/
theorem bind_pure_eq_ok {m : Except ε α} {g : α → β} {b : β}
    (h : (m >>= fun v => pure (g v)) = Except.ok b) : ∃ v, m = Except.ok v ∧ g v = b := by
  cases m with
  | error e => simp [Bind.bind, Except.bind] at h
  | ok v =>
    refine ⟨v, rfl, ?_⟩
    simpa [Bind.bind, Except.bind, Pure.pure, Except.pure] using h

/-- Counterexample to claim C1 as stated: under an ICU-like host collation
for localeCompare, the resolver output for packages named `B` and `a` is
the list `[a, B]`, which is not sorted by simple lexicographic (codepoint)
comparison, since `a` does not precede `B` there. -/
theorem C1_not_lexicographic_counterexample :
    resolveModulesAsync cEnvCollation cSrCollation cOptsIos =
      Except.ok [{ packageName := "a", packageVersion := "1.0.0", extra := [] },
                 { packageName := "B", packageVersion := "1.0.0", extra := [] }] ∧
    ¬ List.Pairwise (fun x y : ModuleDescriptor => simpleLexLe x.packageName y.packageName = true)
      [{ packageName := "a", packageVersion := "1.0.0", extra := [] },
       { packageName := "B", packageVersion := "1.0.0", extra := [] }] := by
  refine ⟨rfl, fun hpw => ?_⟩
  have h1 := (List.pairwise_cons.mp hpw).1
    { packageName := "B", packageVersion := "1.0.0", extra := [] } (by simp)
  exact absurd h1 (by decide)

/-- Claim C1 (amended): for every SearchResults input and resolve options,
when the host localeCompare collation is transitive and total, the list
returned by resolveModulesAsync is sorted ascending by packageName with
respect to that collation, regardless of the order of entries in the input
mapping (the model is deterministic, so completion order cannot matter);
sortedness by simple lexicographic comparison holds only when the collation
is the codepoint one. -/
theorem C1_sorted_by_collation (env : LinkingEnv) (sr : SearchResults)
    (options : ProvidedOptions) (l : List ModuleDescriptor)
    (htrans : ∀ a b c : String, env.localeCompare a b ≠ Ordering.gt →
      env.localeCompare b c ≠ Ordering.gt → env.localeCompare a c ≠ Ordering.gt)
    (htotal : ∀ a b : String,
      env.localeCompare a b ≠ Ordering.gt ∨ env.localeCompare b a ≠ Ordering.gt)
    (hok : resolveModulesAsync env sr options = Except.ok l) :
    l.Pairwise (fun a b => descriptorLe env a b = true) := by
  unfold resolveModulesAsync at hok
  cases hpl : env.platforms options.platform with
  | none =>
    rw [hpl] at hok
    exact absurd hok (by simp)
  | some pl =>
    rw [hpl] at hok
    rcases bind_pure_eq_ok hok with ⟨v, _, hgl⟩
    rw [← hgl]
    exact pairwise_jsSortBy
      (fun a b c hab hbc => by
        simp only [descriptorLe, decide_eq_true_eq] at hab hbc ⊢
        exact htrans _ _ _ hab hbc)
      (fun (a b : ModuleDescriptor) => by
        rcases htotal a.packageName b.packageName with h | h
        · exact Or.inl (by simp [descriptorLe, h])
        · exact Or.inr (by simp [descriptorLe, h]))
      _

/-- Witness for the amended C1: with a trivially consistent collation, a
one-package resolve returns an ordered list and the theorem applies. -/
theorem C1_sorted_by_collation_witness :
    resolveModulesAsync cEnvFailing
      [("good", { path := { abs := true, segs := ["good"] }, version := "1.0.0", duplicates := [] })]
      cOptsIos = Except.ok [{ packageName := "good", packageVersion := "1.0.0", extra := [] }] ∧
    List.Pairwise (fun a b => descriptorLe cEnvFailing a b = true)
      [{ packageName := "good", packageVersion := "1.0.0", extra := [] }] :=
  ⟨rfl, C1_sorted_by_collation cEnvFailing
    [("good", { path := { abs := true, segs := ["good"] }, version := "1.0.0", duplicates := [] })]
    cOptsIos [{ packageName := "good", packageVersion := "1.0.0", extra := [] }]
    (fun _ _ _ _ _ h => Ordering.noConfusion h)
    (fun _ _ => Or.inl (fun h => Ordering.noConfusion h)) rfl⟩
